import Mathlib

/-!
Verification of the crawl-orchestration core of a single-file phpBB forum
scraper.  The Python classes and functions are shallowly embedded as
executable Lean definitions; the external effects (HTTP, HTML parsing, the
filesystem, logging) appear as explicit parameters or as recorded events.
-/

namespace PhpBB

/-! ## Document merger (class PageMerger)

The shared dictionary self.pages (an mp.Manager().dict()) is modelled as an
association list that keeps insertion order, matching Python dict
semantics: assignment to an existing key replaces the value in place,
assignment to a fresh key appends at the end, del removes the entry.
Invoking a save handler (v[class].save(...)) is recorded as a SaveCall
value instead of performing I/O, so the theorems can speak about what data
each save invocation received. -/

/-- One open document: the slot array (data, a list holding None for
not-yet-contributed positions) and the remain counter.  remain is an Int
because the Python counter may in principle go negative before the
`remain <= 0` check. -/
structure Pending (α : Type) where
  data : List (Option α)
  remain : Int
  deriving DecidableEq

abbrev MergerState (K α : Type) := List (K × Pending α)

/-- A recorded invocation of v[class].save(id=key, data=...). -/
structure SaveCall (K α : Type) where
  key : K
  data : List (Option α)
  deriving DecidableEq

variable {K α : Type} [DecidableEq K]

/-- Python dict lookup self.pages[key]; none models the KeyError raised on
an unknown key. -/
def dictGet : MergerState K α → K → Option (Pending α)
  | [], _ => none
  | (k', v) :: rest, k => if k' = k then some v else dictGet rest k

/-- Python dict assignment self.pages[key] = v: replaces in place when the
key is present, appends otherwise. -/
def dictSet : MergerState K α → K → Pending α → MergerState K α
  | [], k, v => [(k, v)]
  | (k', v') :: rest, k, v =>
    if k' = k then (k, v) :: rest else (k', v') :: dictSet rest k v

/-- Python del self.pages[key]. -/
def dictDel : MergerState K α → K → MergerState K α
  | [], _ => []
  | (k', v') :: rest, k =>
    if k' = k then dictDel rest k else (k', v') :: dictDel rest k

/-- Python slice assignment v[data][offset : offset + len(data)] = data
(PageMerger.append line 120).  Slice indices clamp to the list length;
the written items are wrapped in some because the slot array stores None
for missing entries. -/
def writeSlice (l : List (Option α)) (off : Nat) (xs : List α) : List (Option α) :=
  l.take (min off l.length) ++ xs.map some ++ l.drop (min (off + xs.length) l.length)

/-- PageMerger.append (lines 117-133): look the key up (KeyError when
absent), splice the items in at offset, decrement remain, write the value
back, and when remain <= 0 invoke the save handler with the slot array and
delete the key.  The result pairs the new state with the save invocation,
if any. -/
def merger_append (st : MergerState K α) (key : K) (xs : List α) (off : Nat) :
    Option (MergerState K α × Option (SaveCall K α)) :=
  match dictGet st key with
  | none => none
  | some v =>
    let data := writeSlice v.data off xs
    let remain := v.remain - (xs.length : Int)
    let st' := dictSet st key ⟨data, remain⟩
    if remain ≤ 0 then some (dictDel st' key, some ⟨key, data⟩)
    else some (st', none)

/-- PageMerger.add (lines 103-114): unconditionally overwrite the key with
a fresh slot array of the given size and remain = size, then deliver the
items through append at offset 0. -/
def merger_add (st : MergerState K α) (key : K) (size : Nat) (xs : List α) :
    Option (MergerState K α × Option (SaveCall K α)) :=
  merger_append (dictSet st key ⟨List.replicate size none, (size : Int)⟩) key xs 0

/-- PageMerger.force_save (lines 150-159): walk every still-open document,
compact its slot array with filter(None, ...) and call its save handler.
The managed dict hands out value copies, and force_save never assigns back
into self.pages nor deletes keys, so the state is returned unchanged. -/
def force_save (st : MergerState K α) : MergerState K α × List (SaveCall K α) :=
  (st, st.map (fun p => ⟨p.1, p.2.data.filter (fun x => x.isSome)⟩))

/-- One shard delivery to the merger, as performed by the Expand stage:
add for the shard at offset 0, append for every other shard. -/
inductive Delivery (K α : Type) where
  | addD (key : K) (size : Nat) (xs : List α)
  | appendD (key : K) (xs : List α) (off : Nat)
  deriving DecidableEq

/-- Apply one delivery to the merger state. -/
def mergerStep (st : MergerState K α) : Delivery K α →
    Option (MergerState K α × Option (SaveCall K α))
  | .addD key size xs => merger_add st key size xs
  | .appendD key xs off => merger_append st key xs off

/-- Run a sequence of deliveries, accumulating every save invocation in
order; none models the crash of the first delivery that raises. -/
def mergerRun (st : MergerState K α) (saves : List (SaveCall K α)) :
    List (Delivery K α) → Option (MergerState K α × List (SaveCall K α))
  | [] => some (st, saves)
  | d :: rest =>
    match mergerStep st d with
    | none => none
    | some (st', sv) => mergerRun st' (saves ++ sv.toList) rest

/-- The pagination slices of a document with their starting offsets:
slice i starts where slice i-1 ended, the first one at offset o. -/
def withOffsets (o : Nat) : List (List α) → List (Nat × List α)
  | [] => []
  | s :: ss => (o, s) :: withOffsets (o + s.length) ss

/-! ## Frontier (class RequestsIter)

The managed queue plus the two counters.  Only the state observed by
is_done is modelled: the current queue contents and the enqueued /
processed counts (put increments enqueued, processed() increments
processed). -/

structure RequestsIterState (τ : Type) where
  queue : List τ
  enqueued : Nat
  processed : Nat
  deriving DecidableEq

/-- RequestsIter.is_done (lines 970-979): False when the queue is
non-empty, False when processed < enqueued, True otherwise (the
processed > enqueued case only logs an informational message and still
returns True). -/
def is_done (st : RequestsIterState τ) : Bool :=
  if !st.queue.isEmpty then false
  else if st.processed < st.enqueued then false
  else true

/-! ## Fetch stage (function send_worker, lines 52-76)

The network is modelled as a function from the attempt index to the
outcome of r.request() on that attempt. -/

/-- What one call of r.request() does. -/
inductive FetchOutcome (ρ : Type) where
  | success (resp : ρ)
  | connectionError
  | invalidSchema
  | missingSchema
  | indexError
  deriving DecidableEq

/-- What send_worker hands back to the orchestrator: the (req, req.obj)
pair on success, the (None, None) pair on a non-retryable or exhausted
failure, or a process abort (sys.exit(1)) on IndexError. -/
inductive SendResult (ρ : Type) where
  | ok (resp : ρ)
  | failed
  | fatal
  deriving DecidableEq

/-- The retry loop of send_worker: while retry < max_retries, issue one
request; a ConnectionError increments retry and loops, InvalidSchema and
MissingSchema return (None, None) at once, IndexError aborts the process.
Here the loop is driven by the number of retries still allowed
(max_retries - retry) and the second component counts how many requests
were actually issued. -/
def send_worker_loop (fetch : Nat → FetchOutcome ρ) : Nat → Nat → SendResult ρ × Nat
  | 0, attempts => (.failed, attempts)
  | remaining + 1, attempts =>
    match fetch attempts with
    | .success r => (.ok r, attempts + 1)
    | .connectionError => send_worker_loop fetch remaining (attempts + 1)
    | .invalidSchema => (.failed, attempts + 1)
    | .missingSchema => (.failed, attempts + 1)
    | .indexError => (.fatal, attempts + 1)

/-- send_worker: run the retry loop with the full budget; falling out of
the loop returns (None, None), the exhausted-failure result.  No new task
is ever constructed: the same task r is retried in place. -/
def send_worker (fetch : Nat → FetchOutcome ρ) (max_retries : Nat) : SendResult ρ × Nat :=
  send_worker_loop fetch max_retries 0

/-! ## Log severities (send_worker lines 71-76, PhpBBScraper) -/

inductive Severity where
  | debug
  | info
  | warning
  | error
  deriving DecidableEq

/-- Numeric rank of a severity, for comparisons (matches the order of the
Python logging levels). -/
def sevRank : Severity → Nat
  | .debug => 10
  | .info => 20
  | .warning => 30
  | .error => 40

/-- The task kinds that reach send_worker through the frontier. -/
inductive TaskKind where
  | forum
  | topic
  | users
  | forumPassword
  | fileSaver
  deriving DecidableEq

/-- The value of the attribute named url on each task object, as tested by
hasattr(r, 'url') at line 72.  PhpBBForum, PhpBBTopic, PhpBBUsers and
PhpBBForumPassword store their target under the method or field _url, and
FileSaver under the field _url as well; no class defines an attribute
spelled url, so the lookup fails on every kind. -/
def taskUrlAttr : TaskKind → Option (List Char)
  | .forum => none
  | .topic => none
  | .users => none
  | .forumPassword => none
  | .fileSaver => none

/-- Whether a Python string ends with the given suffix (str.endswith). -/
def pyEndsWith (s suffix : List Char) : Bool :=
  suffix.isSuffixOf s

/-- Severity of the log message emitted after the retry budget is
exhausted (lines 71-76): debug when the task has a url attribute ending in
'.html', warning otherwise. -/
def exhaustedLogSeverity (k : TaskKind) : Severity :=
  match taskUrlAttr k with
  | some u => if pyEndsWith u ".html".toList then .debug else .warning
  | none => .warning

/-! ## Orchestrator dispatch and the parse workers
(PhpBBScraper.scrape lines 1034-1056, scrape_worker lines 78-94) -/

/-- One 4-tuple yielded by PhpBBScraper.scrape to the parse pool. -/
structure YieldedItem (Obj Resp M : Type) where
  ok : Bool
  obj : Option Obj
  resp : Option Resp
  merger : Option M
  deriving DecidableEq

/-- How PhpBBScraper.scrape turns one fetched response into a yielded
item (lines 1048-1056).  The Bool records whether queue.processed() was
called before yielding: a 200 response is yielded as
(True, obj, response, page_merger) and not yet marked processed; any other
status is marked processed at once and yielded as
(False, obj, response, None). -/
def dispatchResponse (obj : Obj) (resp : Resp) (status : Nat) (merger : M) :
    YieldedItem Obj Resp M × Bool :=
  if status = 200 then (⟨true, some obj, some resp, some merger⟩, false)
  else (⟨false, some obj, some resp, none⟩, true)

/-- scrape_worker (lines 78-94): a missing obj or a not-ok item returns []
without touching the task object; otherwise obj.scrape(r, page_merger)
runs (passed in here as scrapeFn) and an empty page list is turned into
None.  The arm with ok = True but a missing response or merger would crash
inside obj.scrape and is modelled as none; dispatchResponse never produces
it. -/
def scrape_worker (scrapeFn : Obj → Resp → M → List π) (a : YieldedItem Obj Resp M) :
    Option (List π) :=
  match a.obj with
  | none => some []
  | some o =>
    if !a.ok then some []
    else
      match a.resp, a.merger with
      | some r, some m =>
        let pages := scrapeFn o r m
        if pages.length = 0 then none else some pages
      | _, _ => none

/-! ## Topic page expansion (PhpBBTopic._parse_page lines 483-524 and
PhpBBTopic.scrape lines 751-774)

Each div.post of the page is represented by the outcome of the
HTML-to-markup transform on it: some record when _html2bb succeeded, none
when it returned a falsy result.  The extraction of msg_id, author and
date is pure field plumbing and is folded into the record. -/

/-- The loop body of _parse_page: process the posts in order, appending
each transformed record to self.posts, and return False at the first post
whose transform fails (the already-accumulated records are abandoned by
the caller). -/
def parse_page_loop (acc : List α) : List (Option α) → Bool × List α
  | [] => (true, acc)
  | some p :: rest => parse_page_loop (acc ++ [p]) rest
  | none :: _ => (false, acc)

def parse_page (posts : List (Option α)) : Bool × List α :=
  parse_page_loop [] posts

/-- A merger interaction requested by a topic page. -/
inductive MergerCall (α : Type) where
  | add (size : Nat) (data : List α)
  | append (data : List α) (off : Nat)
  deriving DecidableEq

/-- What PhpBBTopic.scrape produces once the page reached the post-parsing
stage (lines 751-774): the merger calls it performs and the start offsets
of the sibling PhpBBTopic tasks it emits.  start is the task's pagination
offset, elementsCount the total post count reported by the pagination
summary, urlHasStart whether the last pagination URL carries a start
parameter, and startValue / pagesCount come from _pagination. -/
def topic_scrape_expand (start : Nat) (postOutcomes : List (Option α))
    (elementsCount : Nat) (urlHasStart : Bool) (startValue pagesCount : Nat) :
    List (MergerCall α) × List Nat :=
  match parse_page postOutcomes with
  | (false, _) => ([], [])
  | (true, posts) =>
    if start ≠ 0 then ([.append posts start], [])
    else
      let sibs := if urlHasStart then (List.range pagesCount).drop 1 |>.map (· * startValue)
                  else []
      ([.add elementsCount posts], sibs)

/-! ## Resume index and seeding
(PhpBBScraper._load_state lines 1122-1135, _parse_arg lines 1088-1119,
PhpBBForum.scrape lines 429-433)

Python strings are modelled as lists of characters, which matches their
sequence-of-code-points semantics; filenames met by os.walk become an
explicit list. -/

/-- str.strip(): drop whitespace from both ends. -/
def pyStrip (s : List Char) : List Char :=
  ((s.dropWhile Char.isWhitespace).reverse.dropWhile Char.isWhitespace).reverse

/-- Value of a non-empty all-digit character list, most significant digit
first (the accumulator loop used by int()). -/
def digitsVal (l : List Char) : Nat :=
  l.foldl (fun n c => n * 10 + (c.toNat - 48)) 0

def isDigits (l : List Char) : Bool :=
  !l.isEmpty && l.all Char.isDigit

/-- Python int(s) on a string: strip whitespace, allow one leading sign,
then require a non-empty run of digits; none models the ValueError.
(Digit-group underscores, accepted by Python, do not occur in the
filenames and arguments this program handles and are not modelled.) -/
def pyParseInt (s : List Char) : Option Int :=
  match pyStrip s with
  | '-' :: rest => if isDigits rest then some (-(digitsVal rest : Int)) else none
  | '+' :: rest => if isDigits rest then some ((digitsVal rest : Int)) else none
  | t => if isDigits t then some ((digitsVal t : Int)) else none

/-- Python substring test pat in s. -/
def pyContains (s pat : List Char) : Bool :=
  (List.range (s.length + 1)).any (fun i => pat.isPrefixOf (s.drop i))

/-- Python s[:-5]. -/
def dropLast5 (s : List Char) : List Char :=
  s.take (s.length - 5)

/-- The body of the directory-walk loop of _load_state (lines 1126-1134):
skip _meta.json, and for a name containing '.json' try int(f[:-5]),
appending the id on success (the except: pass arm skips failures). -/
def scan_step (acc : List Int) (f : List Char) : List Int :=
  if f = "_meta.json".toList then acc
  else if pyContains f ".json".toList then
    match pyParseInt (dropLast5 f) with
    | some tid => acc ++ [tid]
    | none => acc
  else acc

/-- The directory walk of _load_state (lines 1125-1134) over the file
names met under the output root. -/
def load_state_scan (files : List (List Char)) : List Int :=
  files.foldl scan_step []

/-- The resume set held in opts['scraped_topics']: _load_state only runs
when the force level is 0 (line 1013), otherwise the list stays empty. -/
def load_state (force : Nat) (files : List (List Char)) : List Int :=
  if force ≠ 0 then [] else load_state_scan files

/-- Python t.split(sep, 1): the part before the first separator and,
when a separator occurs, the rest. -/
def pySplitOnce (sep : Char) : List Char → List Char × Option (List Char)
  | [] => ([], none)
  | c :: rest =>
    if c = sep then ([], some rest)
    else
      let (a, b) := pySplitOnce sep rest
      (c :: a, b)

/-- Python t.split(sep) (full split with an explicit separator: splitting
the empty string yields one empty part). -/
def pySplitAll (sep : Char) : List Char → List (List Char)
  | [] => [[]]
  | c :: rest =>
    if c = sep then [] :: pySplitAll sep rest
    else
      match pySplitAll sep rest with
      | [] => [[c]]
      | a :: tail => (c :: a) :: tail

/-- Closed integer range list(range(a, b + 1)). -/
def rangeClosed (a b : Int) : List Int :=
  (List.range (b + 1 - a).toNat).map (fun k => a + k)

/-- One comma-separated item of a -t or --topic argument (the single-id and
range branches of _parse_arg, lines 1098-1119), in the is_topics case:
the topic ids for which a PhpBBTopic is constructed.  none models a crash
of the run: int() raising ValueError, a range specifier without exactly
two parts, or the range branch reaching the constructor call of line 1117,
which omits the required start argument and raises TypeError before
anything can be enqueued. -/
def parse_arg_topic_item (scraped : List Int) (r : List Char) : Option (List Int) :=
  if !(r.contains '-') then
    match pyParseInt r with
    | none => none
    | some v => if v ∈ scraped then some [] else some [v]
  else
    match pySplitAll '-' r with
    | [a, b] =>
      match pyParseInt a, pyParseInt b with
      | some va, some vb =>
        if (rangeClosed va vb).all (fun i => decide (i ∈ scraped)) then some [] else none
      | _, _ => none
    | _ => none

/-- The items of one -t argument: strip the ':password' suffix, split on
commas, process each item. -/
def seed_items (scraped : List Int) : List (List Char) → Option (List Int)
  | [] => some []
  | r :: rest =>
    match parse_arg_topic_item scraped r, seed_items scraped rest with
    | some ids, some l => some (ids ++ l)
    | _, _ => none

/-- All topic ids for which CLI seeding (_parse_arg with is_topics=True)
constructs a PhpBBTopic, across the -t or --topic arguments. -/
def seed_topic_ids (scraped : List Int) : List (List Char) → Option (List Int)
  | [] => some []
  | t :: ts =>
    match seed_items scraped (pySplitAll ',' (pySplitOnce ':' t).1),
          seed_topic_ids scraped ts with
    | some ids, some l => some (ids ++ l)
    | _, _ => none

/-- The topic-queueing loop of PhpBBForum.scrape (lines 429-433): a
PhpBBTopic is created for every topic id discovered on the listing page
that is not in opts['scraped_topics']. -/
def forum_queue_topics (scraped : List Int) (tids : List Int) : List Int :=
  tids.filter (fun t => !(scraped.contains t))

/-! ## Media re-download decisions (force levels) -/

/-- PhpBBTopic.save, lines 793 and 799: a FileSaver for an attachment or
inline-media reference is created when the target file does not exist, or
unconditionally at force level 2
('if not os.path.isfile(fn) or opts[force] == 2'). -/
def topic_media_enqueue (fileExists : Bool) (force : Nat) : Bool :=
  !fileExists || force == 2

/-- PhpBBUsers.scrape, line 891:
'if os.path.isfile(fname) or self.opts[force]: continue' - the avatar
FileSaver is skipped when the file already exists or when the force level
is truthy (non-zero). -/
def avatar_enqueue (fileExists : Bool) (force : Nat) : Bool :=
  !(fileExists || force != 0)

/-! ## Derived notions used by the statements about the merger -/

/-- Fold a list of (offset, items) contributions into a slot array, in
list order. -/
def foldWrite (d : List (Option α)) (l : List (Nat × List α)) : List (Option α) :=
  l.foldl (fun a c => writeSlice a c.1 c.2) d

/-- Two contributions touch disjoint index intervals. -/
def disjointW (c c' : Nat × List α) : Prop :=
  c.1 + c.2.length ≤ c'.1 ∨ c'.1 + c'.2.length ≤ c.1

/-- Total number of items in a list of contributions. -/
def natSum (l : List (Nat × List α)) : Nat :=
  (l.map (fun c => c.2.length)).sum

/-! ## Lemmas about the Python dict model -/

theorem dictGet_dictSet_self (m : MergerState K α) (k : K) (v : Pending α) :
    dictGet (dictSet m k v) k = some v := by
  induction m with
  | nil => simp [dictGet, dictSet]
  | cons p rest ih =>
    obtain ⟨k', v'⟩ := p
    by_cases h : k' = k
    · simp [dictGet, dictSet, h]
    · simp [dictGet, dictSet, h, ih]

theorem dictDel_dictSet_self (m : MergerState K α) (k : K) (v : Pending α) :
    dictDel (dictSet m k v) k = dictDel m k := by
  induction m with
  | nil => simp [dictDel, dictSet]
  | cons p rest ih =>
    obtain ⟨k', v'⟩ := p
    by_cases h : k' = k
    · simp [dictDel, dictSet, h]
    · simp [dictDel, dictSet, h, ih]

/-! ## Lemmas about slice assignment -/

theorem length_writeSlice (l : List (Option α)) (off : Nat) (xs : List α)
    (h : off + xs.length ≤ l.length) :
    (writeSlice l off xs).length = l.length := by
  simp only [writeSlice, List.length_append, List.length_take, List.length_map,
    List.length_drop]
  omega

theorem getElem?_writeSlice (l : List (Option α)) (off : Nat) (xs : List α)
    (h : off + xs.length ≤ l.length) (j : Nat) :
    (writeSlice l off xs)[j]? =
      if off ≤ j ∧ j < off + xs.length then (xs.map some)[j - off]? else l[j]? := by
  have hoff : min off l.length = off := by omega
  have hend : min (off + xs.length) l.length = off + xs.length := by omega
  simp only [writeSlice, hoff, hend, List.append_assoc]
  rw [List.getElem?_append]
  simp only [List.length_take, hoff]
  rcases Nat.lt_or_ge j off with hj | hj
  · rw [if_pos hj, if_neg (by omega)]
    simp [List.getElem?_take, hj]
  · rw [if_neg (by omega)]
    rw [List.getElem?_append]
    simp only [List.length_map]
    rcases Nat.lt_or_ge j (off + xs.length) with hj2 | hj2
    · rw [if_pos (show j - off < xs.length by omega),
        if_pos (show off ≤ j ∧ j < off + xs.length from ⟨hj, hj2⟩)]
    · rw [if_neg (show ¬(j - off < xs.length) by omega),
        if_neg (show ¬(off ≤ j ∧ j < off + xs.length) by omega)]
      rw [List.getElem?_drop]
      congr 1
      omega

theorem writeSlice_comm (l : List (Option α)) (c c' : Nat × List α)
    (h1 : c.1 + c.2.length ≤ l.length) (h2 : c'.1 + c'.2.length ≤ l.length)
    (hd : disjointW c c') :
    writeSlice (writeSlice l c.1 c.2) c'.1 c'.2
      = writeSlice (writeSlice l c'.1 c'.2) c.1 c.2 := by
  have hl1 : (writeSlice l c.1 c.2).length = l.length := length_writeSlice _ _ _ h1
  have hl2 : (writeSlice l c'.1 c'.2).length = l.length := length_writeSlice _ _ _ h2
  apply List.ext_getElem?
  intro j
  rw [getElem?_writeSlice (writeSlice l c.1 c.2) c'.1 c'.2 (by omega) j,
    getElem?_writeSlice (writeSlice l c'.1 c'.2) c.1 c.2 (by omega) j,
    getElem?_writeSlice l c.1 c.2 h1 j, getElem?_writeSlice l c'.1 c'.2 h2 j]
  by_cases ha : c.1 ≤ j ∧ j < c.1 + c.2.length
  · have hc' : ¬(c'.1 ≤ j ∧ j < c'.1 + c'.2.length) := by
      rcases hd with hd | hd <;> omega
    simp [ha, hc']
  · by_cases hb : c'.1 ≤ j ∧ j < c'.1 + c'.2.length
    · simp [ha, hb]
    · simp [ha, hb]

theorem length_foldWrite (l : List (Nat × List α)) :
    ∀ d : List (Option α), (∀ c ∈ l, c.1 + c.2.length ≤ d.length) →
      (foldWrite d l).length = d.length := by
  induction l with
  | nil => intro d _; rfl
  | cons c t ih =>
    intro d hb
    have hc : c.1 + c.2.length ≤ d.length := hb c (by simp)
    have hw : (writeSlice d c.1 c.2).length = d.length := length_writeSlice _ _ _ hc
    have : foldWrite d (c :: t) = foldWrite (writeSlice d c.1 c.2) t := rfl
    rw [this, ih _ (by intro c' hc'; rw [hw]; exact hb c' (by simp [hc']))]
    exact hw

theorem disjointW_symm : Symmetric (disjointW (α := α)) := by
  intro c c' h
  rcases h with h | h
  · exact Or.inr h
  · exact Or.inl h

theorem foldWrite_perm {l₁ l₂ : List (Nat × List α)} (p : l₁.Perm l₂) (N : Nat)
    (hb : ∀ c ∈ l₁, c.1 + c.2.length ≤ N) (hp : l₁.Pairwise disjointW) :
    ∀ d : List (Option α), d.length = N → foldWrite d l₁ = foldWrite d l₂ := by
  induction p with
  | nil => intro d _; rfl
  | cons x p' ih =>
    intro d hd
    have hx : x.1 + x.2.length ≤ N := hb x (by simp)
    have hw : (writeSlice d x.1 x.2).length = N := by
      rw [length_writeSlice _ _ _ (by omega)]; exact hd
    simp only [foldWrite, List.foldl_cons]
    exact ih (by intro c hc; exact hb c (by simp [hc]))
      (List.pairwise_cons.mp hp).2 _ hw
  | swap x y t =>
    intro d hd
    have hxy : disjointW y x := (List.pairwise_cons.mp hp).1 x (by simp)
    have hx : x.1 + x.2.length ≤ N := hb x (by simp)
    have hy : y.1 + y.2.length ≤ N := hb y (by simp)
    have e : writeSlice (writeSlice d y.1 y.2) x.1 x.2
        = writeSlice (writeSlice d x.1 x.2) y.1 y.2 :=
      writeSlice_comm d y x (by omega) (by omega) hxy
    show foldWrite (writeSlice (writeSlice d y.1 y.2) x.1 x.2) t
      = foldWrite (writeSlice (writeSlice d x.1 x.2) y.1 y.2) t
    rw [e]
  | trans p₁ p₂ ih₁ ih₂ =>
    intro d hd
    rw [ih₁ hb hp d hd]
    exact ih₂ (by intro c hc; exact hb c (p₁.mem_iff.mpr hc))
      ((List.Perm.pairwise_iff (fun h => disjointW_symm h) p₁).mp hp) d hd

/-! ## Lemmas about the offset layout of a partition -/

theorem withOffsets_map_len (ss : List (List α)) :
    ∀ o, (withOffsets o ss).map (fun c => c.2.length) = ss.map List.length := by
  induction ss with
  | nil => intro o; rfl
  | cons s t ih => intro o; simp [withOffsets, ih]

theorem withOffsets_mem_snd (ss : List (List α)) :
    ∀ o c, c ∈ withOffsets o ss → c.2 ∈ ss := by
  induction ss with
  | nil => intro o c h; simp [withOffsets] at h
  | cons s t ih =>
    intro o c h
    simp only [withOffsets, List.mem_cons] at h
    rcases h with h | h
    · subst h; simp
    · exact List.mem_cons_of_mem _ (ih _ c h)

theorem withOffsets_mem_bound (ss : List (List α)) :
    ∀ o c, c ∈ withOffsets o ss →
      o ≤ c.1 ∧ c.1 + c.2.length ≤ o + (ss.map List.length).sum := by
  induction ss with
  | nil => intro o c h; simp [withOffsets] at h
  | cons s t ih =>
    intro o c h
    simp only [withOffsets, List.mem_cons] at h
    rcases h with h | h
    · subst h
      simp only [List.map_cons, List.sum_cons]
      omega
    · have hbd := ih (o + s.length) c h
      simp only [List.map_cons, List.sum_cons]
      omega

theorem withOffsets_pairwise (ss : List (List α)) :
    ∀ o, (withOffsets o ss).Pairwise disjointW := by
  induction ss with
  | nil => intro o; simp [withOffsets]
  | cons s t ih =>
    intro o
    simp only [withOffsets]
    refine List.pairwise_cons.mpr ⟨?_, ih _⟩
    intro c hc
    exact Or.inl (withOffsets_mem_bound t (o + s.length) c hc).1

/-- Writing the slices of a partition in their natural order fills the
tail of the slot array left to right. -/
theorem foldWrite_withOffsets (ss : List (List α)) :
    ∀ (pre : List (Option α)) (M : Nat), (ss.map List.length).sum ≤ M →
      foldWrite (pre ++ List.replicate M none) (withOffsets pre.length ss)
        = pre ++ ss.flatten.map some
            ++ List.replicate (M - ss.flatten.length) none := by
  induction ss with
  | nil => intro pre M h; simp [withOffsets, foldWrite]
  | cons s t ih =>
    intro pre M h
    simp only [List.map_cons, List.sum_cons] at h
    have hw : writeSlice (pre ++ List.replicate M none) pre.length s
        = (pre ++ s.map some) ++ List.replicate (M - s.length) none := by
      have hNlen : (pre ++ List.replicate M none).length = pre.length + M := by simp
      have h1 : min pre.length (pre.length + M) = pre.length := by omega
      have h2 : min (pre.length + s.length) (pre.length + M) = pre.length + s.length := by
        omega
      simp only [writeSlice, hNlen, h1, h2]
      rw [List.take_left, List.drop_append, List.drop_replicate]
    have step : foldWrite (pre ++ List.replicate M none) (withOffsets pre.length (s :: t))
        = foldWrite (writeSlice (pre ++ List.replicate M none) pre.length s)
            (withOffsets (pre.length + s.length) t) := rfl
    rw [step, hw]
    have hlen : pre.length + s.length = (pre ++ s.map some).length := by simp
    rw [hlen, ih (pre ++ s.map some) (M - s.length) (by omega)]
    have hflat : (s :: t).flatten = s ++ t.flatten := List.flatten_cons ..
    have harith : M - s.length - t.flatten.length = M - (s ++ t.flatten).length := by
      simp only [List.length_append]
      omega
    rw [hflat, harith]
    simp [List.append_assoc]

/-! ## Draining a batch of appends -/

theorem natSum_cons (c : Nat × List α) (t : List (Nat × List α)) :
    natSum (c :: t) = c.2.length + natSum t := by
  simp [natSum]

theorem natSum_pos (t : List (Nat × List α)) (c : Nat × List α) (hmem : c ∈ t)
    (hc : c.2 ≠ []) : 0 < natSum t := by
  induction t with
  | nil => simp at hmem
  | cons x r ih =>
    rcases List.mem_cons.mp hmem with h | h
    · subst h
      have : 0 < c.2.length := List.length_pos.mpr hc
      rw [natSum_cons]
      omega
    · have := ih h
      rw [natSum_cons]
      omega

theorem mergerRun_cons_some (st st' : MergerState K α) (saves : List (SaveCall K α))
    (d : Delivery K α) (sv : Option (SaveCall K α)) (rest : List (Delivery K α))
    (h : mergerStep st d = some (st', sv)) :
    mergerRun st saves (d :: rest) = mergerRun st' (saves ++ sv.toList) rest := by
  simp [mergerRun, h]

/-- Delivering a non-empty batch of appends whose item total equals the
open document's remain counter performs exactly one save - by the last
append of the batch - with the fully folded slot array, and deletes the
key. -/
theorem mergerRun_appends (key : K) :
    ∀ (l : List (Nat × List α)) (st : MergerState K α) (d : List (Option α))
      (saves : List (SaveCall K α)),
      dictGet st key = some ⟨d, (natSum l : Int)⟩ →
      l ≠ [] → (∀ c ∈ l, c.2 ≠ []) →
      mergerRun st saves (l.map (fun c => Delivery.appendD key c.2 c.1))
        = some (dictDel st key, saves ++ [⟨key, foldWrite d l⟩]) := by
  intro l
  induction l with
  | nil => intro st d saves _ hne _; exact absurd rfl hne
  | cons c t ih =>
    intro st d saves hget _ hpos
    simp only [List.map_cons, mergerRun, mergerStep, merger_append, hget]
    cases t with
    | nil =>
      have hz : ((natSum [c] : Int) - (c.2.length : Int)) ≤ 0 := by
        rw [natSum_cons]
        simp [natSum]
      rw [if_pos hz]
      simp only [List.map_nil, mergerRun, Option.toList_some,
        dictDel_dictSet_self]
      rfl
    | cons c' t' =>
      have hpt : 0 < natSum (c' :: t') :=
        natSum_pos _ c' (by simp) (hpos c' (by simp))
      have hnz : ¬ ((natSum (c :: c' :: t') : Int) - (c.2.length : Int)) ≤ 0 := by
        rw [natSum_cons]
        push_cast
        omega
      rw [if_neg hnz]
      have hremain : ((natSum (c :: c' :: t') : Int) - (c.2.length : Int))
          = (natSum (c' :: t') : Int) := by
        rw [natSum_cons]
        push_cast
        ring
      rw [hremain]
      have hget' : dictGet
          (dictSet st key ⟨writeSlice d c.1 c.2, (natSum (c' :: t') : Int)⟩) key
          = some ⟨writeSlice d c.1 c.2, (natSum (c' :: t') : Int)⟩ :=
        dictGet_dictSet_self ..
      show mergerRun (dictSet st key ⟨writeSlice d c.1 c.2, (natSum (c' :: t') : Int)⟩)
          (saves ++ (none : Option (SaveCall K α)).toList)
          (List.map (fun c => Delivery.appendD key c.2 c.1) (c' :: t'))
        = some (dictDel st key, saves ++ [⟨key, foldWrite d (c :: c' :: t')⟩])
      rw [ih (dictSet st key ⟨writeSlice d c.1 c.2, (natSum (c' :: t') : Int)⟩)
        (writeSlice d c.1 c.2) (saves ++ (none : Option (SaveCall K α)).toList) hget'
        (by simp) (fun x hx => hpos x (by simp [hx]))]
      rw [dictDel_dictSet_self]
      simp only [Option.toList_none, List.append_nil]
      rfl

/-- Claim C1, amended: for a document key whose nonempty (offset, items)
slices partition [0, N), delivered as PageMerger.add for the offset-0
slice first and PageMerger.append for the remaining slices in any arrival
order, the merger invokes the save handler exactly once, with the item
sequence equal to the concatenation of the slices in offset order - no
gaps, no duplicates - and the key is removed from the open-document set.
(The amendment: the add must arrive first; see the counterexample.) -/
theorem c1_merge_completeness (key : K) (s0 : List α) (tail : List (List α))
    (hne : ∀ s ∈ s0 :: tail, s ≠ [])
    (rest : List (Nat × List α))
    (hperm : rest.Perm (withOffsets s0.length tail)) :
    mergerRun ([] : MergerState K α) []
      (Delivery.addD key ((s0 :: tail).flatten.length) s0
        :: rest.map (fun c => Delivery.appendD key c.2 c.1))
      = some ([], [⟨key, (s0 :: tail).flatten.map some⟩]) := by
  cases tail with
  | nil =>
    have hrest : rest = [] := hperm.eq_nil
    subst hrest
    have hN : (s0 :: ([] : List (List α))).flatten.length = s0.length := by simp
    rw [hN]
    have hstep : mergerStep ([] : MergerState K α) (Delivery.addD key s0.length s0)
        = some ([], some ⟨key, writeSlice (List.replicate s0.length none) 0 s0⟩) := by
      simp only [mergerStep, merger_add, merger_append, dictGet_dictSet_self]
      rw [if_pos (show (s0.length : Int) - (s0.length : Int) ≤ 0 by omega)]
      have : dictDel (dictSet (dictSet ([] : MergerState K α) key
          ⟨List.replicate s0.length none, (s0.length : Int)⟩) key
          ⟨writeSlice (List.replicate s0.length none) 0 s0,
            (s0.length : Int) - (s0.length : Int)⟩) key = [] := by
        simp [dictSet, dictDel]
      rw [this]
    rw [List.map_nil, mergerRun_cons_some _ _ _ _ _ _ hstep]
    have hws : writeSlice (List.replicate s0.length none) 0 s0 = s0.map some := by
      simp [writeSlice]
    simp [mergerRun, hws]
  | cons t ts =>
    have hflatlen : (s0 :: t :: ts).flatten.length
        = s0.length + (t :: ts).flatten.length := by
      simp [List.flatten_cons]
    have hsum : natSum rest = (t :: ts).flatten.length := by
      have h1 : natSum rest = natSum (withOffsets s0.length (t :: ts)) := by
        unfold natSum
        exact (hperm.map _).sum_eq
      rw [h1]
      unfold natSum
      rw [withOffsets_map_len]
      exact (List.length_flatten _).symm
    have htpos : 0 < (t :: ts).flatten.length := by
      have h2 : 0 < t.length := List.length_pos.mpr (hne t (by simp))
      simp only [List.flatten_cons, List.length_append]
      omega
    have hstep : mergerStep ([] : MergerState K α)
        (Delivery.addD key ((s0 :: t :: ts).flatten.length) s0)
        = some ([(key, ⟨writeSlice (List.replicate ((s0 :: t :: ts).flatten.length) none) 0 s0,
            (natSum rest : Int)⟩)], none) := by
      simp only [mergerStep, merger_add, merger_append, dictGet_dictSet_self]
      rw [if_neg (show ¬(((s0 :: t :: ts).flatten.length : Int) - (s0.length : Int) ≤ 0) by
        omega)]
      have hsets : dictSet (dictSet ([] : MergerState K α) key
          ⟨List.replicate ((s0 :: t :: ts).flatten.length) none,
            ((s0 :: t :: ts).flatten.length : Int)⟩) key
          ⟨writeSlice (List.replicate ((s0 :: t :: ts).flatten.length) none) 0 s0,
            ((s0 :: t :: ts).flatten.length : Int) - (s0.length : Int)⟩
          = [(key, ⟨writeSlice (List.replicate ((s0 :: t :: ts).flatten.length) none) 0 s0,
              ((s0 :: t :: ts).flatten.length : Int) - (s0.length : Int)⟩)] := by
        simp [dictSet]
      rw [hsets]
      have hremain : ((s0 :: t :: ts).flatten.length : Int) - (s0.length : Int)
          = (natSum rest : Int) := by
        rw [hsum]
        omega
      rw [hremain]
    rw [mergerRun_cons_some _ _ _ _ _ _ hstep]
    have hrestne : rest ≠ [] := by
      intro h
      subst h
      have : withOffsets s0.length (t :: ts) = [] := hperm.symm.eq_nil
      simp [withOffsets] at this
    have hposall : ∀ c ∈ rest, c.2 ≠ [] := by
      intro c hc
      exact hne c.2 (List.mem_cons_of_mem _ (withOffsets_mem_snd _ _ c (hperm.subset hc)))
    have hget : dictGet [(key, (⟨writeSlice
        (List.replicate ((s0 :: t :: ts).flatten.length) none) 0 s0,
        (natSum rest : Int)⟩ : Pending α))] key
        = some ⟨writeSlice (List.replicate ((s0 :: t :: ts).flatten.length) none) 0 s0,
            (natSum rest : Int)⟩ := by
      simp [dictGet]
    rw [show ([] : List (SaveCall K α)) ++ (none : Option (SaveCall K α)).toList
      = [] by simp]
    rw [mergerRun_appends key rest _ _ [] hget hrestne hposall]
    have hdel : dictDel [(key, (⟨writeSlice
        (List.replicate ((s0 :: t :: ts).flatten.length) none) 0 s0,
        (natSum rest : Int)⟩ : Pending α))] key = ([] : MergerState K α) := by
      simp [dictDel]
    rw [hdel]
    have hfold : foldWrite (writeSlice
        (List.replicate ((s0 :: t :: ts).flatten.length) none) 0 s0) rest
        = (s0 :: t :: ts).flatten.map some := by
      have e1 : foldWrite (writeSlice
          (List.replicate ((s0 :: t :: ts).flatten.length) none) 0 s0) rest
          = foldWrite (List.replicate ((s0 :: t :: ts).flatten.length) none)
              ((0, s0) :: rest) := rfl
      rw [e1]
      have hpermL : ((0, s0) :: rest).Perm
          ((0, s0) :: withOffsets s0.length (t :: ts)) := hperm.cons _
      have hbounds : ∀ c ∈ (0, s0) :: rest,
          c.1 + c.2.length ≤ (s0 :: t :: ts).flatten.length := by
        intro c hc
        rcases List.mem_cons.mp hc with h | h
        · subst h
          simp only []
          omega
        · have hb := withOffsets_mem_bound (t :: ts) s0.length c (hperm.subset h)
          have hlf := List.length_flatten (t :: ts)
          omega
      have hpw : ((0, s0) :: rest).Pairwise disjointW := by
        refine List.pairwise_cons.mpr ⟨?_, ?_⟩
        · intro c hc
          have hb := withOffsets_mem_bound (t :: ts) s0.length c (hperm.subset hc)
          exact Or.inl (by simp only []; omega)
        · exact (List.Perm.pairwise_iff (fun h => disjointW_symm h) hperm).mpr
            (withOffsets_pairwise (t :: ts) s0.length)
      rw [foldWrite_perm hpermL ((s0 :: t :: ts).flatten.length) hbounds hpw
        (List.replicate ((s0 :: t :: ts).flatten.length) none) (by simp)]
      have e2 : ((0, s0) :: withOffsets s0.length (t :: ts))
          = withOffsets 0 (s0 :: t :: ts) := by
        simp [withOffsets]
      rw [e2]
      have e3 := foldWrite_withOffsets (s0 :: t :: ts) [] ((s0 :: t :: ts).flatten.length)
        (le_of_eq (List.length_flatten _).symm)
      simpa using e3
    rw [hfold]
    simp

/-- Claim C1, counterexample to the claim as stated: the slices [10] at
offset 0 and [20] at offset 1 partition [0, 2), but the arrival order that
delivers the offset-1 shard (through append) before the offset-0 shard
(through add) raises KeyError inside PageMerger.append - the run aborts
and the save handler is never invoked, refuting "in any arrival order ...
the save handler is invoked exactly once". -/
theorem c1_claim_counterexample :
    mergerRun ([] : MergerState Nat Nat) []
      [Delivery.appendD 1 [20] 1, Delivery.addD 1 2 [10]] = none := by
  rfl

/-- Witness for c1_merge_completeness: three one-post pages of topic 5
delivered as add of page 0 followed by the appends for offsets 2 and 1 in
reversed order still assemble to [10, 20, 30] with exactly one save. -/
theorem c1_merge_completeness_witness :
    (∀ s ∈ [[10], [20], [30]], s ≠ ([] : List Nat)) ∧
    ([((2 : Nat), [(30 : Nat)]), (1, [20])]).Perm
      (withOffsets ([10] : List Nat).length [[20], [30]]) ∧
    mergerRun ([] : MergerState Nat Nat) []
      (Delivery.addD 5 (([[10], [20], [30]] : List (List Nat)).flatten.length) [10]
        :: ([((2 : Nat), [(30 : Nat)]), (1, [20])]).map
            (fun c => Delivery.appendD 5 c.2 c.1))
      = some ([], [⟨5, ([[10], [20], [30]] : List (List Nat)).flatten.map some⟩]) :=
  ⟨by decide, by decide,
    c1_merge_completeness 5 [10] [[20], [30]] (by decide) _ (by decide)⟩

/-! ## Claim C2 -/

/-- Claim C2, counterexample to the claim as stated: with an empty queue,
1 task enqueued and 2 marked processed (reachable, because a failed fetch
is marked processed inside PhpBBScraper.scrape and then again by the main
loop), is_done returns True although the processed count does not equal
the enqueued count. -/
theorem c2_claim_counterexample :
    is_done (⟨[], 1, 2⟩ : RequestsIterState Nat) = true ∧
    (⟨[], 1, 2⟩ : RequestsIterState Nat).processed
      ≠ (⟨[], 1, 2⟩ : RequestsIterState Nat).enqueued := by
  decide

/-- Claim C2, amended: is_done returns true iff the queue currently holds
no tasks AND the processed count is at least - not exactly - the enqueued
count (is_done only logs when processed exceeds enqueued, and still
returns True). -/
theorem c2_is_done_characterization (st : RequestsIterState τ) :
    is_done st = true ↔ st.queue = [] ∧ st.enqueued ≤ st.processed := by
  rcases st with ⟨q, e, p⟩
  simp only [is_done]
  by_cases hq : q.isEmpty
  · have hq' : q = [] := List.isEmpty_iff.mp hq
    subst hq'
    by_cases hp : p < e
    · simp [hp] <;> omega
    · simp [hp] <;> omega
  · have hq' : q ≠ [] := fun h => hq (by simp [h])
    simp [hq, hq']

/-- Witness for c2_is_done_characterization at a concrete drained state. -/
theorem c2_is_done_characterization_witness :
    is_done (⟨[], 3, 3⟩ : RequestsIterState Nat) = true ↔
      (⟨[], 3, 3⟩ : RequestsIterState Nat).queue = []
        ∧ (⟨[], 3, 3⟩ : RequestsIterState Nat).enqueued
            ≤ (⟨[], 3, 3⟩ : RequestsIterState Nat).processed :=
  c2_is_done_characterization _

/-! ## Claim C3 -/

/-- Claim C3: a task whose fetch always raises a transient connection
error is attempted exactly max_retries times and the exhausted failure
(None, None) is then returned; there is no (max_retries + 1)-th attempt,
and the loop retries the same task in place without constructing a new
one. -/
theorem c3_retry_bound (max_retries : Nat) (fetch : Nat → FetchOutcome ρ)
    (h : ∀ n, fetch n = FetchOutcome.connectionError) :
    send_worker fetch max_retries = (SendResult.failed, max_retries) := by
  have haux : ∀ k a, send_worker_loop fetch k a = (SendResult.failed, a + k) := by
    intro k
    induction k with
    | zero => intro a; simp [send_worker_loop]
    | succ m ih =>
      intro a
      simp only [send_worker_loop, h a, ih (a + 1)]
      congr 1
      omega
  rw [send_worker, haux max_retries 0]
  congr 1
  omega

/-- Witness for c3_retry_bound: with max_retries = 3 the always-failing
fetch is attempted exactly 3 times and then reported exhausted. -/
theorem c3_retry_bound_witness :
    (∀ n : Nat, (fun _ => FetchOutcome.connectionError : Nat → FetchOutcome Unit) n
        = FetchOutcome.connectionError) ∧
    send_worker (fun _ => FetchOutcome.connectionError : Nat → FetchOutcome Unit) 3
      = (SendResult.failed, 3) :=
  ⟨fun _ => rfl, c3_retry_bound 3 _ (fun _ => rfl)⟩

/-! ## Claim C4 -/

/-- Claim C4, counterexample to "afterwards the key is removed from the
merger's open-document set": force_save on a state holding the still-open
document 7 (one filled slot of two, remaining 1) leaves the state - and
hence the open-document set - completely unchanged; the key is still
present. -/
theorem c4_claim_counterexample :
    (force_save [((7 : Nat), (⟨[some (5 : Nat), none], 1⟩ : Pending Nat))]).1
      = [((7 : Nat), (⟨[some (5 : Nat), none], 1⟩ : Pending Nat))] ∧
    ((7 : Nat), (⟨[some (5 : Nat), none], 1⟩ : Pending Nat))
      ∈ (force_save [((7 : Nat), (⟨[some (5 : Nat), none], 1⟩ : Pending Nat))]).1 ∧
    (force_save [((7 : Nat), (⟨[some (5 : Nat), none], 1⟩ : Pending Nat))]).2
      = [⟨7, [some 5]⟩] := by
  decide

/-- Claim C4, amended: every still-open PendingDocument with remaining > 0
at shutdown is saved by force_save with exactly its non-empty slots, in
offset (slot) order; the key is NOT removed afterwards - force_save never
deletes entries, so the open-document set is unchanged (the final stats
report uses it). -/
theorem c4_force_save_compacts (st : MergerState K α) (key : K) (v : Pending α)
    (hmem : (key, v) ∈ st) (hrem : 0 < v.remain) :
    (⟨key, v.data.filter (fun x => x.isSome)⟩ : SaveCall K α) ∈ (force_save st).2 ∧
    (force_save st).1 = st :=
  ⟨List.mem_map.mpr ⟨(key, v), hmem, rfl⟩, rfl⟩

/-- Witness for c4_force_save_compacts at a concrete one-document state. -/
theorem c4_force_save_compacts_witness :
    ((9 : Nat), (⟨[none, some (4 : Nat)], 1⟩ : Pending Nat))
        ∈ [((9 : Nat), (⟨[none, some (4 : Nat)], 1⟩ : Pending Nat))] ∧
    (0 : Int) < (⟨[none, some (4 : Nat)], 1⟩ : Pending Nat).remain ∧
    ((⟨9, [some 4]⟩ : SaveCall Nat Nat)
        ∈ (force_save [((9 : Nat), (⟨[none, some (4 : Nat)], 1⟩ : Pending Nat))]).2 ∧
      (force_save [((9 : Nat), (⟨[none, some (4 : Nat)], 1⟩ : Pending Nat))]).1
        = [((9 : Nat), (⟨[none, some (4 : Nat)], 1⟩ : Pending Nat))]) :=
  ⟨by decide, by decide,
    c4_force_save_compacts [((9 : Nat), ⟨[none, some 4], 1⟩)] 9 ⟨[none, some 4], 1⟩
      (by decide) (by decide)⟩

/-! ## Claim C6 -/

/-- Claim C6, counterexample to the claim as stated: a 404 response is
yielded with ok = False (not as a successful result), and scrape_worker
returns the empty outcome without consulting the task's scrape method -
even a scrape method that would return pages is ignored. -/
theorem c6_claim_counterexample :
    (dispatchResponse (0 : Nat) (0 : Nat) 404 (0 : Nat)).1.ok = false ∧
    scrape_worker (fun _ _ _ => [(42 : Nat)])
      (dispatchResponse (0 : Nat) (0 : Nat) 404 (0 : Nat)).1 = some [] := by
  decide

/-- Claim C6, amended: a response with a non-200 status is marked
processed immediately and yielded with ok = False (still carrying the
response); scrape_worker then returns the empty page list without ever
invoking the task object's scrape method, so the Expand stage does not get
to react to the status. -/
theorem c6_non200_short_circuit (Obj Resp M π : Type) (obj : Obj) (resp : Resp)
    (status : Nat) (merger : M) (h : status ≠ 200) :
    (dispatchResponse obj resp status merger).1.ok = false ∧
    (dispatchResponse obj resp status merger).2 = true ∧
    ∀ scrapeFn : Obj → Resp → M → List π,
      scrape_worker scrapeFn (dispatchResponse obj resp status merger).1 = some [] := by
  unfold dispatchResponse
  rw [if_neg h]
  exact ⟨rfl, rfl, fun _ => rfl⟩

/-- Witness for c6_non200_short_circuit at status 404. -/
theorem c6_non200_short_circuit_witness :
    (404 ≠ 200) ∧
    ((dispatchResponse (0 : Nat) (0 : Nat) 404 (0 : Nat)).1.ok = false ∧
      (dispatchResponse (0 : Nat) (0 : Nat) 404 (0 : Nat)).2 = true ∧
      ∀ scrapeFn : Nat → Nat → Nat → List Nat,
        scrape_worker scrapeFn (dispatchResponse (0 : Nat) (0 : Nat) 404 (0 : Nat)).1
          = some []) :=
  ⟨by decide, c6_non200_short_circuit Nat Nat Nat Nat 0 0 404 0 (by decide)⟩

/-! ## Claim C7 -/

theorem parse_page_loop_none :
    ∀ (posts : List (Option α)) (acc : List α),
      none ∈ posts → (parse_page_loop acc posts).1 = false := by
  intro posts
  induction posts with
  | nil => intro acc h; simp at h
  | cons p rest ih =>
    intro acc h
    cases p with
    | none => rfl
    | some x =>
      have hr : none ∈ rest := by simpa using h
      exact ih (acc ++ [x]) hr

/-- Claim C7: a topic page on which at least one post's HTML-to-markup
transform returns no result produces the empty outcome: no merger call
(neither add nor append) and no sibling topic tasks, regardless of how
many earlier posts on the page parsed successfully. -/
theorem c7_parse_failure_empty (start : Nat) (postOutcomes : List (Option α))
    (elementsCount : Nat) (urlHasStart : Bool) (startValue pagesCount : Nat)
    (h : none ∈ postOutcomes) :
    topic_scrape_expand start postOutcomes elementsCount urlHasStart startValue pagesCount
      = (([] : List (MergerCall α)), ([] : List Nat)) := by
  cases hpp : parse_page postOutcomes with
  | mk b acc =>
    have hb : b = false := by
      have hpf : (parse_page postOutcomes).1 = false :=
        parse_page_loop_none postOutcomes [] h
      rw [hpp] at hpf
      exact hpf
    subst hb
    simp [topic_scrape_expand, hpp]

/-- Witness for c7_parse_failure_empty: a page whose first post parses
and whose second fails yields the empty outcome. -/
theorem c7_parse_failure_empty_witness :
    (none ∈ [some (1 : Nat), none]) ∧
    topic_scrape_expand 0 [some (1 : Nat), none] 45 true 20 3
      = (([] : List (MergerCall Nat)), ([] : List Nat)) :=
  ⟨by decide, c7_parse_failure_empty 0 [some 1, none] 45 true 20 3 (by decide)⟩

/-! ## Claim C8 -/

/-- Claim C8 evaluated on the code: topic media and attachments follow the
claim (an existing file is re-fetched exactly at force level 2), but
avatars do not - the avatar FileSaver is skipped at every non-zero force
level, even when the file does not exist on disk. -/
theorem c8_force_media_eval :
    topic_media_enqueue true 2 = true ∧
    topic_media_enqueue true 0 = false ∧
    topic_media_enqueue true 1 = false ∧
    topic_media_enqueue false 0 = true ∧
    avatar_enqueue true 2 = false ∧
    avatar_enqueue false 2 = false ∧
    avatar_enqueue false 1 = false ∧
    avatar_enqueue false 0 = true := by
  decide

/-! ## Claim C9 -/

/-- Claim C9, counterexample to the claim as stated: the retries-exhausted
severity for a media (FileSaver) task equals the one for a document
(topic) task - warning in both cases - and is not strictly lower. -/
theorem c9_claim_counterexample :
    exhaustedLogSeverity TaskKind.fileSaver = Severity.warning ∧
    exhaustedLogSeverity TaskKind.topic = Severity.warning ∧
    ¬ sevRank (exhaustedLogSeverity TaskKind.fileSaver)
        < sevRank (exhaustedLogSeverity TaskKind.topic) := by
  decide

/-- Claim C9, amended: the severity of the retries-exhausted log message
is warning for every task kind. The debug branch of send_worker requires
an attribute named url whose value ends in '.html', and no task class
defines an attribute spelled url, so media/file fetches are logged at the
same severity as document fetches, not at a lower one. -/
theorem c9_exhausted_severity_uniform (k : TaskKind) :
    exhaustedLogSeverity k = Severity.warning := by
  cases k <;> rfl

/-! ## Claim C10 -/

theorem dictSet_dictSet_self (m : MergerState K α) (k : K) (v w : Pending α) :
    dictSet (dictSet m k v) k w = dictSet m k w := by
  induction m with
  | nil => simp [dictSet]
  | cons p rest ih =>
    obtain ⟨k', v'⟩ := p
    by_cases h : k' = k
    · simp [dictSet, h]
    · simp [dictSet, h, ih]

/-- Claim C10: PageMerger.add for a key that already holds an open
PendingDocument replaces it wholesale - the outcome is identical to adding
on a state in which the key held no document, so every previously
contributed item is silently discarded with no save invoked for it; the
slot array restarts from [None]*size and remaining restarts from size
(then immediately reduced by the delivered offset-0 items, with a save
exactly when the fresh document is thereby already complete). -/
theorem c10_add_replaces (st : MergerState K α) (key : K) (d : Pending α)
    (size : Nat) (xs : List α) :
    merger_add (dictSet st key d) key size xs = merger_add st key size xs ∧
    merger_add st key size xs =
      (if (size : Int) - (xs.length : Int) ≤ 0 then
        some (dictDel st key, some ⟨key, writeSlice (List.replicate size none) 0 xs⟩)
      else
        some (dictSet st key ⟨writeSlice (List.replicate size none) 0 xs,
          (size : Int) - (xs.length : Int)⟩, none)) := by
  constructor
  · unfold merger_add
    rw [dictSet_dictSet_self]
  · simp only [merger_add, merger_append, dictGet_dictSet_self]
    by_cases h : (size : Int) - (xs.length : Int) ≤ 0
    · rw [if_pos h, if_pos h, dictDel_dictSet_self, dictDel_dictSet_self]
    · rw [if_neg h, if_neg h, dictSet_dictSet_self]

/-! ## Claim C5: helper lemmas about digits, filenames and the scan -/

theorem digit_not_ws (c : Char) (h : c.isDigit = true) : c.isWhitespace = false := by
  simp only [Char.isWhitespace]
  by_contra hw
  simp only [Bool.not_eq_false, Bool.or_eq_true, decide_eq_true_eq] at hw
  rcases hw with ((h1 | h1) | h1) | h1 <;> subst h1 <;> exact absurd h (by decide)

theorem dropWhile_all_neg (p : Char → Bool) (l : List Char)
    (h : ∀ c ∈ l, p c = false) : l.dropWhile p = l := by
  cases l with
  | nil => rfl
  | cons c t => simp [List.dropWhile_cons, h c (by simp)]

theorem pyStrip_digits (ds : List Char) (h : ds.all Char.isDigit = true) :
    pyStrip ds = ds := by
  have hall : ∀ c ∈ ds, Char.isWhitespace c = false := fun c hc =>
    digit_not_ws c (List.all_eq_true.mp h c hc)
  unfold pyStrip
  rw [dropWhile_all_neg _ _ hall,
    dropWhile_all_neg _ _ (fun c hc => hall c (List.mem_reverse.mp hc)),
    List.reverse_reverse]

theorem pyParseInt_digits (ds : List Char) (hd : isDigits ds = true) :
    pyParseInt ds = some ((digitsVal ds : Int)) := by
  have hsplit : ds.isEmpty = false ∧ ds.all Char.isDigit = true := by
    unfold isDigits at hd
    simp only [Bool.and_eq_true, Bool.not_eq_true'] at hd
    exact hd
  unfold pyParseInt
  rw [pyStrip_digits ds hsplit.2]
  cases ds with
  | nil => simp at hsplit
  | cons c t =>
    have hc : c.isDigit = true := List.all_eq_true.mp hsplit.2 c (by simp)
    have hc1 : c ≠ '-' := fun he => absurd (he ▸ hc) (by decide)
    have hc2 : c ≠ '+' := fun he => absurd (he ▸ hc) (by decide)
    split
    · next heq => exact absurd (List.cons.injEq .. ▸ heq : _ ∧ _).1 hc1
    · next heq => exact absurd (List.cons.injEq .. ▸ heq : _ ∧ _).1 hc2
    · rw [if_pos hd]

theorem digits_json_ne_meta (ds : List Char) (hd : isDigits ds = true) :
    ds ++ ".json".toList ≠ "_meta.json".toList := by
  intro he
  cases ds with
  | nil => simp [isDigits] at hd
  | cons c t =>
    have hc : c.isDigit = true := by
      unfold isDigits at hd
      simp only [Bool.and_eq_true] at hd
      exact List.all_eq_true.mp hd.2 c (by simp)
    have hhead : c = '_' := by
      have hq := congrArg (fun l => l.head?) he
      simpa using hq
    exact absurd (hhead ▸ hc) (by decide)

theorem isPrefixOf_self (l : List Char) : l.isPrefixOf l = true := by
  induction l with
  | nil => rfl
  | cons c t ih => simp [List.isPrefixOf, ih]

theorem pyContains_append (s pat : List Char) : pyContains (s ++ pat) pat = true := by
  unfold pyContains
  rw [List.any_eq_true]
  refine ⟨s.length, ?_, ?_⟩
  · rw [List.mem_range, List.length_append]
    omega
  · rw [List.drop_left]
    exact isPrefixOf_self pat

theorem dropLast5_json (ds : List Char) : dropLast5 (ds ++ ".json".toList) = ds := by
  unfold dropLast5
  have hlen : (ds ++ ".json".toList).length = ds.length + 5 := by simp
  rw [hlen, show ds.length + 5 - 5 = ds.length by omega]
  exact List.take_left ds _

theorem scan_step_mono (x : Int) (acc : List Int) (f : List Char) (hx : x ∈ acc) :
    x ∈ scan_step acc f := by
  unfold scan_step
  by_cases h1 : f = "_meta.json".toList
  · simp [h1, hx]
  · rw [if_neg h1]
    by_cases h2 : pyContains f ".json".toList = true
    · rw [if_pos h2]
      cases hp : pyParseInt (dropLast5 f) with
      | none => exact hx
      | some tid => exact List.mem_append_left _ hx
    · rw [if_neg h2]
      exact hx

theorem foldl_scan_mono (files : List (List Char)) :
    ∀ (acc : List Int) (x : Int), x ∈ acc → x ∈ files.foldl scan_step acc := by
  induction files with
  | nil => intro acc x hx; exact hx
  | cons f fs ih =>
    intro acc x hx
    exact ih (scan_step acc f) x (scan_step_mono x acc f hx)

theorem foldl_scan_hit (files : List (List Char)) :
    ∀ (acc : List Int) (g : List Char) (tid : Int), g ∈ files →
      g ≠ "_meta.json".toList → pyContains g ".json".toList = true →
      pyParseInt (dropLast5 g) = some tid →
      tid ∈ files.foldl scan_step acc := by
  induction files with
  | nil => intro acc g tid hmem _ _ _; simp at hmem
  | cons f fs ih =>
    intro acc g tid hmem hne hcont hparse
    rcases List.mem_cons.mp hmem with h | h
    · subst h
      have hstep : scan_step acc g = acc ++ [tid] := by
        unfold scan_step
        rw [if_neg hne, if_pos hcont, hparse]
      rw [List.foldl_cons, hstep]
      exact foldl_scan_mono fs _ tid (by simp)
    · exact ih (scan_step acc f) g tid h hne hcont hparse

theorem parse_arg_topic_item_filter (scraped : List Int) (r : List Char)
    (ids : List Int) (h : parse_arg_topic_item scraped r = some ids) :
    ∀ x ∈ ids, x ∉ scraped := by
  unfold parse_arg_topic_item at h
  by_cases hc : (r.contains '-') = true
  · rw [hc] at h
    simp only [Bool.not_true, Bool.false_eq_true, if_false] at h
    split at h
    · split at h
      · split at h
        · injection h with h'
          subst h'
          intro x hx
          simp at hx
        · cases h
      · cases h
    · cases h
  · rw [Bool.not_eq_true] at hc
    rw [hc] at h
    simp only [Bool.not_false, if_true] at h
    split at h
    · cases h
    · next v hv =>
      split at h
      · injection h with h'
        subst h'
        intro x hx
        simp at hx
      · next hmem =>
        injection h with h'
        subst h'
        intro x hx
        rw [List.mem_singleton] at hx
        subst hx
        exact hmem

theorem seed_items_filter (scraped : List Int) :
    ∀ (items : List (List Char)) (l : List Int),
      seed_items scraped items = some l → ∀ x ∈ l, x ∉ scraped := by
  intro items
  induction items with
  | nil =>
    intro l h x hx
    injection h with h'
    subst h'
    simp at hx
  | cons r rest ih =>
    intro l h x hx
    unfold seed_items at h
    split at h
    · next ids l' hids hl' =>
      injection h with h'
      subst h'
      rcases List.mem_append.mp hx with hx | hx
      · exact parse_arg_topic_item_filter scraped r ids hids x hx
      · exact ih l' hl' x hx
    · cases h

theorem seed_topic_ids_filter (scraped : List Int) :
    ∀ (args : List (List Char)) (l : List Int),
      seed_topic_ids scraped args = some l → ∀ x ∈ l, x ∉ scraped := by
  intro args
  induction args with
  | nil =>
    intro l h x hx
    injection h with h'
    subst h'
    simp at hx
  | cons t ts ih =>
    intro l h x hx
    unfold seed_topic_ids at h
    split at h
    · next ids l' hids hl' =>
      injection h with h'
      subst h'
      rcases List.mem_append.mp hx with hx | hx
      · exact seed_items_filter scraped _ ids hids x hx
      · exact ih l' hl' x hx
    · cases h

theorem forum_queue_topics_filter (scraped tids : List Int) :
    ∀ x ∈ forum_queue_topics scraped tids, x ∉ scraped := by
  intro x hx
  unfold forum_queue_topics at hx
  have hcond := (List.mem_filter.mp hx).2
  simpa using hcond

/-- Claim C5: with the Resume Index enabled (force level 0) every id whose
<id>.json file is met by the startup scan is placed in the resume set;
with forced re-scrape (force ≠ 0) the scan is skipped entirely and the set
stays empty; and neither CLI seeding (_parse_arg) nor forum-listing
expansion (PhpBBForum.scrape) ever constructs a Topic task for an id that
is in the resume set. -/
theorem c5_resume_filtering :
    (∀ (files : List (List Char)) (ds : List Char), isDigits ds = true →
        (ds ++ ".json".toList) ∈ files →
        ((digitsVal ds : Int)) ∈ load_state 0 files) ∧
    (∀ (force : Nat) (files : List (List Char)), force ≠ 0 →
        load_state force files = []) ∧
    (∀ (scraped : List Int) (args : List (List Char)) (l : List Int),
        seed_topic_ids scraped args = some l → ∀ x ∈ l, x ∉ scraped) ∧
    (∀ (scraped tids : List Int), ∀ x ∈ forum_queue_topics scraped tids,
        x ∉ scraped) := by
  refine ⟨?_, ?_, seed_topic_ids_filter, forum_queue_topics_filter⟩
  · intro files ds hd hmem
    have hload : load_state 0 files = load_state_scan files := by
      simp [load_state]
    rw [hload]
    unfold load_state_scan
    refine foldl_scan_hit files [] (ds ++ ".json".toList) (digitsVal ds) hmem
      (digits_json_ne_meta ds hd) (pyContains_append ds _) ?_
    rw [dropLast5_json, pyParseInt_digits ds hd]
  · intro force files h
    simp [load_state, h]

/-- Witness for c5_resume_filtering: file 123.json is picked up by the
scan at force 0; at force 2 the scan is skipped; topic argument 7 with
resume set [5] seeds only id 7, which is not in the set; forum listing
[5, 9] with resume set [5] queues only 9. -/
theorem c5_resume_filtering_witness :
    ((123 : Int)) ∈ load_state 0 ["123.json".toList] ∧
    load_state 2 ["123.json".toList] = [] ∧
    ((7 : Int) ∉ ([5] : List Int)) ∧
    ((9 : Int) ∉ ([5] : List Int)) := by
  refine ⟨?_, ?_, ?_, ?_⟩
  · exact c5_resume_filtering.1 ["123.json".toList] "123".toList (by decide) (by decide)
  · exact c5_resume_filtering.2.1 2 ["123.json".toList] (by decide)
  · exact c5_resume_filtering.2.2.1 [5] ["7".toList] [7] (by decide) 7 (by decide)
  · exact c5_resume_filtering.2.2.2 [5] [5, 9] 9 (by decide)

end PhpBB

